import Mathlib

/-!
Shallow embedding of the gostore query-building / repository layer
(packages `builder`, `repository`, `exec` of github.com/AndroX7/gostore)
together with theorems checking the natural-language specification
against it.

Modelling conventions:
  * Go `interface{}` values that flow through the layer untouched are
    modelled by the inductive `Value`.  Containers, pointers and
    `time.Time` are modelled by exactly the observation this layer makes
    of them (`reflect.Value.Len`, `IsNil`, `Time.IsZero`); the layer
    never inspects them further.
  * Go machine integers (`int`) are modelled by `Int`; no arithmetic in
    this layer can overflow in a way any claim depends on.
  * The datastore client is an external collaborator; store responses
    are passed in explicitly (`Except`-valued), and the store's
    documented conjunctive filter semantics is modelled by
    `NativeQuery.matchesFilters`.
-/

namespace GoStore

/-- Model of Go `interface{}` values as observed by this layer:
scalars are carried exactly; containers only through their length,
pointers/interfaces through nil-ness, `time.Time` through `IsZero`,
other structs opaquely (mirroring `reflect` usage in filter.go). -/
inductive Value where
  | int (n : Int)
  | str (s : String)
  | boolv (b : Bool)
  | nullv
  | listv (len : Nat)
  | ptr (isNil : Bool)
  | timev (isZero : Bool)
  | structv
deriving DecidableEq, Repr

instance : BEq Value := ⟨fun a b => decide (a = b)⟩

/-- `type FilterOperator string` (builder/types.go). -/
def FilterOperator := String
deriving instance DecidableEq, Repr for FilterOperator

/-- `Equal FilterOperator = "="` (builder/types.go). -/
def Equal : FilterOperator := "="

/-- `LessThan FilterOperator = "<"` (builder/types.go). -/
def LessThan : FilterOperator := "<"

/-- `LessThanOrEqual FilterOperator = "<="` (builder/types.go). -/
def LessThanOrEqual : FilterOperator := "<="

/-- `GreaterThan FilterOperator = ">"` (builder/types.go). -/
def GreaterThan : FilterOperator := ">"

/-- `GreaterThanOrEqual FilterOperator = ">="` (builder/types.go). -/
def GreaterThanOrEqual : FilterOperator := ">="

/-- `NotEqual FilterOperator = "!="` (builder/types.go). -/
def NotEqual : FilterOperator := "!="

/-- `type OrderDirection string` (builder/types.go). -/
def OrderDirection := String
deriving instance DecidableEq, Repr for OrderDirection

/-- `Ascending OrderDirection = "asc"` (builder/types.go). -/
def Ascending : OrderDirection := "asc"

/-- `Descending OrderDirection = "desc"` (builder/types.go). -/
def Descending : OrderDirection := "desc"

/-- `FilterParam` (builder/types.go): one filter condition. -/
structure FilterParam where
  field : String
  operator : FilterOperator
  value : Value
deriving DecidableEq, Repr

/-- `OrderParam` (builder/types.go). -/
structure OrderParam where
  field : String
  direction : OrderDirection
deriving DecidableEq, Repr

/-- `AncestorParam` (builder/types.go). -/
structure AncestorParam where
  Kind : String
  ID : Value
deriving DecidableEq, Repr

/-- `QueryParams` (builder/types.go): the canonical query specification.
The `Transaction` field is never read by any code under scrutiny and is
omitted. -/
structure QueryParams where
  Filters : List FilterParam
  Orders : List OrderParam
  Limit : Int
  Offset : Int
  Cursor : String
  Select : List String
  Distinct : Bool
  KeysOnly : Bool
  Ancestor : Option AncestorParam
deriving DecidableEq, Repr

/-- `PaginationResult` (builder/types.go), field order as declared. -/
structure PaginationResult where
  NextCursor : String
  HasMore : Bool
  Total : Nat
deriving DecidableEq, Repr

/-- `Builder` (builder/builder.go). -/
structure Builder where
  kind : String
  params : QueryParams
deriving DecidableEq, Repr

/-- `New()` (builder/builder.go): fresh builder, zero-valued params with
empty filter/order slices. -/
def Builder.New : Builder :=
  ⟨"", ⟨[], [], 0, 0, "", [], false, false, none⟩⟩

/-- `(*Builder).Kind` (builder/builder.go). -/
def Builder.Kind (b : Builder) (kind : String) : Builder :=
  { b with kind := kind }

/-- `(*Builder).Filter` (builder/builder.go): appends one condition. -/
def Builder.Filter (b : Builder) (field : String) (operator : FilterOperator)
    (value : Value) : Builder :=
  { b with params := { b.params with
      Filters := b.params.Filters ++ [⟨field, operator, value⟩] } }

/-- `(*Builder).Where` (builder/builder.go): `Filter` with `Equal`. -/
def Builder.Where (b : Builder) (field : String) (value : Value) : Builder :=
  b.Filter field Equal value

/-- `(*Builder).WhereIn` (builder/builder.go): one `Equal` filter per value. -/
def Builder.WhereIn (b : Builder) (field : String) (values : List Value) : Builder :=
  values.foldl (fun b v => b.Filter field Equal v) b

/-- `(*Builder).Order` (builder/builder.go): appends one ordering. -/
def Builder.Order (b : Builder) (field : String) (direction : OrderDirection) : Builder :=
  { b with params := { b.params with
      Orders := b.params.Orders ++ [⟨field, direction⟩] } }

/-- `(*Builder).OrderAsc` (builder/builder.go). -/
def Builder.OrderAsc (b : Builder) (field : String) : Builder :=
  b.Order field Ascending

/-- `(*Builder).OrderDesc` (builder/builder.go). -/
def Builder.OrderDesc (b : Builder) (field : String) : Builder :=
  b.Order field Descending

/-- `(*Builder).Limit` (builder/builder.go): overwrites the limit. -/
def Builder.Limit (b : Builder) (limit : Int) : Builder :=
  { b with params := { b.params with Limit := limit } }

/-- `(*Builder).Offset` (builder/builder.go): overwrites the offset. -/
def Builder.Offset (b : Builder) (offset : Int) : Builder :=
  { b with params := { b.params with Offset := offset } }

/-- `(*Builder).Cursor` (builder/builder.go): overwrites the cursor. -/
def Builder.Cursor (b : Builder) (cursor : String) : Builder :=
  { b with params := { b.params with Cursor := cursor } }

/-- `(*Builder).Select` (builder/builder.go): `b.params.Select = fields`
— assigns (replaces) the projection list. -/
def Builder.Select (b : Builder) (fields : List String) : Builder :=
  { b with params := { b.params with Select := fields } }

/-- `(*Builder).Distinct` (builder/builder.go). -/
def Builder.Distinct (b : Builder) : Builder :=
  { b with params := { b.params with Distinct := true } }

/-- `(*Builder).KeysOnly` (builder/builder.go). -/
def Builder.KeysOnly (b : Builder) : Builder :=
  { b with params := { b.params with KeysOnly := true } }

/-- `(*Builder).Ancestor` (builder/builder.go): overwrites the ancestor. -/
def Builder.Ancestor (b : Builder) (kind : String) (id : Value) : Builder :=
  { b with params := { b.params with Ancestor := some ⟨kind, id⟩ } }

/-- Whether the character list starts with the given pattern. -/
def strStartsWith : List Char → List Char → Bool
  | _, [] => true
  | [], _ :: _ => false
  | c :: cs, d :: ds => c == d && strStartsWith cs ds

/-- First occurrence of the (non-empty) separator in the list: the part
before it and the part after it. -/
def strFindSep (sep : List Char) : List Char → Option (List Char × List Char)
  | [] => none
  | c :: cs =>
    if strStartsWith (c :: cs) sep then some ([], (c :: cs).drop sep.length)
    else match strFindSep sep cs with
      | some p => some (c :: p.1, p.2)
      | none => none

/-- Splitting worker; each step consumes at least one character of a
non-empty separator, so fuel `length + 1` always suffices. -/
def goSplitAux (sep : List Char) : Nat → List Char → List (List Char)
  | 0, l => [l]
  | fuel+1, l =>
    match strFindSep sep l with
    | none => [l]
    | some p => p.1 :: goSplitAux sep fuel p.2

/-- Go `strings.Split s t` for a non-empty separator: cut at each
leftmost non-overlapping occurrence. -/
def goSplit (s t : String) : List String :=
  (goSplitAux t.data (s.data.length + 1) s.data).map String.mk

/-- Go `strings.Contains s t` for a non-empty `t`. -/
def goContains (s t : String) : Bool := (strFindSep t.data s.data).isSome

/-- Go `unicode.IsSpace` restricted to ASCII whitespace (the only
whitespace any claim exercises). -/
def goIsSpace (c : Char) : Bool :=
  ([' ', '\t', '\n', '\x0b', '\x0c', '\r'] : List Char).contains c

/-- Go `strings.TrimSpace`: strip whitespace from both ends. -/
def goTrim (s : String) : String :=
  String.mk (((s.data.dropWhile goIsSpace).reverse.dropWhile goIsSpace).reverse)

/-- Go `strings.ToLower` restricted to ASCII letters (the only case any
claim exercises). -/
def goToLower (s : String) : String :=
  String.mk (s.data.map (fun c =>
    if 'A' ≤ c && c ≤ 'Z' then Char.ofNat (c.toNat + 32) else c))

/-- `FilterBuilder` (builder/filter.go). -/
structure FilterBuilder where
  filters : List FilterParam
deriving DecidableEq, Repr

/-- `NewFilter()` (builder/filter.go). -/
def NewFilter : FilterBuilder := ⟨[]⟩

/-- `(*FilterBuilder).Equal` (builder/filter.go). -/
def FilterBuilder.Equal (f : FilterBuilder) (field : String) (value : Value) :
    FilterBuilder :=
  ⟨f.filters ++ [⟨field, GoStore.Equal, value⟩]⟩

/-- `(*FilterBuilder).NotEqual` (builder/filter.go). -/
def FilterBuilder.NotEqual (f : FilterBuilder) (field : String) (value : Value) :
    FilterBuilder :=
  ⟨f.filters ++ [⟨field, GoStore.NotEqual, value⟩]⟩

/-- The key-parsing block of `(*FilterBuilder).FromMap`
(builder/filter.go lines 154-178): the chain of `strings.Contains`
tests in source order `>=`, `<=`, `>`, `<`, `!=`; on a hit the field is
`strings.TrimSpace(strings.Split(key, tok)[0])`, otherwise the operator
defaults to `=` and the field is the whole key. -/
def fromMapKeyOp (key : String) : String × FilterOperator :=
  if goContains key ">=" then (goTrim ((goSplit key ">=").headD ""), GreaterThanOrEqual)
  else if goContains key "<=" then (goTrim ((goSplit key "<=").headD ""), LessThanOrEqual)
  else if goContains key ">" then (goTrim ((goSplit key ">").headD ""), GreaterThan)
  else if goContains key "<" then (goTrim ((goSplit key "<").headD ""), LessThan)
  else if goContains key "!=" then (goTrim ((goSplit key "!=").headD ""), NotEqual)
  else (key, Equal)

/-- `(*FilterBuilder).FromMap` (builder/filter.go): appends one
condition per entry, with the key parsed by `fromMapKeyOp` and the
value passed through unchanged.  Go map iteration order is
unspecified; the map is modelled as an association list in some
iteration order. -/
def FilterBuilder.FromMap (f : FilterBuilder) (m : List (String × Value)) :
    FilterBuilder :=
  m.foldl (fun f kv =>
    ⟨f.filters ++ [⟨(fromMapKeyOp kv.1).1, (fromMapKeyOp kv.1).2, kv.2⟩]⟩) f

/-- `isZeroValue` (builder/filter.go): kind switch of the reflection
helper.  `listv` covers the Array/Map/Slice kinds (observed only via
`Len`), `ptr` the Interface/Ptr kinds (observed via `IsNil`), `nullv` a
nil interface value, `timev` the `time.Time` special case, `structv`
any other struct (never zero). -/
def isZeroValue : Value → Bool
  | .str s => s.length == 0
  | .int n => n == 0
  | .boolv b => !b
  | .nullv => true
  | .listv len => len == 0
  | .ptr isNil => isNil
  | .timev isZero => isZero
  | .structv => false

/-- One field of a Go struct as seen by `FromStruct`: declared name,
the raw `datastore` and `json` tag values (Go's `Tag.Get` returns `""`
when the tag is absent), and the field's value. -/
structure StructField where
  name : String
  datastoreTag : String
  jsonTag : String
  value : Value
deriving DecidableEq, Repr

/-- The tag-resolution block of `FromStruct` (builder/filter.go lines
132-143): `datastore` tag unless empty or `"-"`, else `json` tag unless
empty or `"-"`, else the lowercased field name; then everything after
the first comma is dropped. -/
def resolveFieldName (fd : StructField) : String :=
  let tag := if fd.datastoreTag = "" ∨ fd.datastoreTag = "-"
             then fd.jsonTag else fd.datastoreTag
  let tag := if tag = "" ∨ tag = "-" then goToLower fd.name else tag
  (goSplit tag ",").headD ""

/-- `(*FilterBuilder).FromStruct` (builder/filter.go): walks the fields
in declaration order, skips zero values, and emits an equality filter
under the resolved field name. -/
def FilterBuilder.FromStruct (f : FilterBuilder) (fields : List StructField) :
    FilterBuilder :=
  fields.foldl (fun f fd =>
    if isZeroValue fd.value then f
    else f.Equal (resolveFieldName fd) fd.value) f

/-- `(*FilterBuilder).Build` (builder/filter.go). -/
def FilterBuilder.Build (f : FilterBuilder) : List FilterParam := f.filters

/-- The native datastore query assembled by `(*Builder).Build`
(builder/builder.go).  Filters keep their structured form (the
`fmt.Sprintf("%s %s", field, op)` rendering is the collaborator API's
transport encoding of exactly this pair).  Cursor decoding is modelled
as succeeding on any non-empty token, since no claim exercises the
soft-fail decode path. -/
structure NativeQuery where
  kind : String
  filters : List FilterParam
  orders : List String
  limit : Option Int
  offset : Option Int
  startCursor : Option String
  projection : List String
  distinct : Bool
  keysOnly : Bool
  ancestor : Option (String × Value)
deriving DecidableEq, Repr

/-- `(*Builder).Build` (builder/builder.go): translation of the
accumulated `QueryParams` to the native query; limit/offset/cursor/
projection/distinct/keysOnly/ancestor apply only when set, and an
ancestor id that is neither string nor int64 leaves the key nil (no
ancestor applied). -/
def Builder.Build (b : Builder) : NativeQuery :=
  { kind := b.kind
    filters := b.params.Filters
    orders := b.params.Orders.map (fun o =>
      if o.direction = Descending then "-" ++ o.field else o.field)
    limit := if b.params.Limit > 0 then some b.params.Limit else none
    offset := if b.params.Offset > 0 then some b.params.Offset else none
    startCursor := if b.params.Cursor ≠ "" then some b.params.Cursor else none
    projection := b.params.Select
    distinct := b.params.Distinct
    keysOnly := b.params.KeysOnly
    ancestor := match b.params.Ancestor with
      | some a => match a.ID with
        | Value.str s => some (a.Kind, Value.str s)
        | Value.int n => some (a.Kind, Value.int n)
        | _ => none
      | none => none }

/-- Evaluation of one native filter condition against an entity
(a field valuation), modelling the external store's documented
comparison semantics; only the six operators of this layer are
meaningful, anything else matches nothing. -/
def evalFilter (e : String → Value) (fp : FilterParam) : Bool :=
  if fp.operator = Equal then e fp.field == fp.value
  else if fp.operator = NotEqual then !(e fp.field == fp.value)
  else match e fp.field, fp.value with
    | Value.int a, Value.int b =>
      if fp.operator = LessThan then decide (a < b)
      else if fp.operator = LessThanOrEqual then decide (a ≤ b)
      else if fp.operator = GreaterThan then decide (b < a)
      else if fp.operator = GreaterThanOrEqual then decide (b ≤ a)
      else false
    | Value.str a, Value.str b =>
      if fp.operator = LessThan then decide (a < b)
      else if fp.operator = LessThanOrEqual then decide (a < b ∨ a = b)
      else if fp.operator = GreaterThan then decide (b < a)
      else if fp.operator = GreaterThanOrEqual then decide (b < a ∨ a = b)
      else false
    | _, _ => false

/-- The store applies the query's filter list conjunctively (spec §4.2:
filters apply as AND conditions in specification order). -/
def NativeQuery.matchesFilters (q : NativeQuery) (e : String → Value) : Bool :=
  q.filters.all (evalFilter e)

/-- `(*Builder).Execute` (builder/builder.go): the store's `GetAll`
response is passed in; on success the pagination metadata is
`Total = len(keys)` and `HasMore = (len(keys) == limit && limit > 0)`;
`NextCursor` is left at its zero value. -/
def Builder.Execute (b : Builder) (resp : Except String (List Unit)) :
    Except String PaginationResult :=
  match resp with
  | .error e => .error e
  | .ok keys => .ok
      ⟨"", decide ((keys.length : Int) = b.params.Limit) && decide (0 < b.params.Limit),
        keys.length⟩

/-- The clone built inside `(*Builder).Count` (builder/builder.go lines
260-264): a fresh `Builder` struct whose `params` field is `b.params`
copied by value (Go struct assignment), to which `KeysOnly()` is then
applied.  Only the clone's keys-only flag is written. -/
def Builder.CountClone (b : Builder) : Builder :=
  Builder.KeysOnly ⟨b.kind, b.params⟩

/-- `(*Builder).Count` (builder/builder.go): runs `GetAll` on the
clone's build and returns the number of keys; the original builder
variable is untouched (second component: the builder as left behind for
subsequent calls). -/
def Builder.Count (b : Builder) (store : NativeQuery → Except String (List Unit)) :
    Except String Nat × Builder :=
  (match store b.CountClone.Build with
    | .error e => .error e
    | .ok keys => .ok keys.length, b)

/-- `(*BaseRepository).applyMapParams` (repository/repository.go lines
257-281): reserved keys `limit`/`offset`/`cursor`/`order_by` configure
the builder when the value has the expected dynamic type; every other
key goes through `b.Where(key, value)` — an equality filter on the
literal key. -/
def applyMapParams (b : Builder) (params : List (String × Value)) : Builder :=
  params.foldl (fun b kv =>
    if kv.1 = "limit" then
      match kv.2 with
      | Value.int v => b.Limit v
      | _ => b
    else if kv.1 = "offset" then
      match kv.2 with
      | Value.int v => b.Offset v
      | _ => b
    else if kv.1 = "cursor" then
      match kv.2 with
      | Value.str v => b.Cursor v
      | _ => b
    else if kv.1 = "order_by" then
      match kv.2 with
      | Value.str v => b.OrderAsc v
      | _ => b
    else b.Where kv.1 kv.2) b

/-- The map branch of `(*BaseRepository).QueryTyped`
(repository/repository.go): build on the repository's kind, apply the
map params, then `Execute`. -/
def QueryTypedMap (kind : String) (params : List (String × Value))
    (resp : Except String (List Unit)) : Except String PaginationResult :=
  (applyMapParams (Builder.New.Kind kind) params).Execute resp

namespace Exec

/-- The builder assembled by `(*Exec).Paginate` (exec/exec.go lines
317-324): `offset := (page-1)*pageSize`, then
`New().Kind(kind).Limit(pageSize).Offset(offset)` plus the
`FromMap`-normalized filters. -/
def paginateBuilder (kind : String) (filters : List (String × Value))
    (page pageSize : Int) : Builder :=
  let offset := (page - 1) * pageSize
  let b := ((Builder.New.Kind kind).Limit pageSize).Offset offset
  (FilterBuilder.Build (NewFilter.FromMap filters)).foldl
    (fun b fp => b.Filter fp.field fp.operator fp.value) b

/-- `(*Exec).Paginate` (exec/exec.go): executes the paginated query
against the store response. -/
def Paginate (kind : String) (filters : List (String × Value))
    (page pageSize : Int) (resp : Except String (List Unit)) :
    Except String PaginationResult :=
  (paginateBuilder kind filters page pageSize).Execute resp

/-- Go `reflect.Value.Slice(i, end)` on a slice of length `len`:
valid exactly when `0 ≤ i ≤ end ≤ len` (cap = len here); out of range
panics, modelled by `none`. -/
def goSlice {α : Type} (l : List α) (i e : Int) : Option (List α) :=
  if 0 ≤ i ∧ i ≤ e ∧ e ≤ (l.length : Int)
  then some ((l.drop i.toNat).take (e - i).toNat)
  else none

/-- How a run of `(*Exec).BulkCreate` ends: normal return `nil`, the
first failing batch's error, or a runtime panic from an out-of-range
slice bound. -/
inductive BulkOutcome (E : Type) where
  | ok : BulkOutcome E
  | err : E → BulkOutcome E
  | fault : BulkOutcome E
deriving DecidableEq, Repr

/-- Observable trace of a `BulkCreate` run: the outcome, every
`CreateMulti` invocation as (number of nil ids passed, batch), and the
batches the store committed (those whose `CreateMulti` returned nil). -/
structure BulkResult (α E : Type) where
  outcome : BulkOutcome E
  calls : List (Nat × List α)
  committed : List (List α)
deriving DecidableEq, Repr

/-- The loop of `(*Exec).BulkCreate` (exec/exec.go lines 354-369),
one constructor case per remaining fuel unit; `none` means the run did
not finish within the given fuel.  `fails` models the store's
`PutMulti`: `some e` makes that batch's `CreateMulti` return `e`.
Each iteration: guard `i < total`; `end := i + batchSize` clamped to
`total`; `v.Slice(i, end)` (panic ⇒ `fault`); `ids` is `end-i` nils
(auto-generate keys); on error return it, else commit and `i += b`. -/
def bulkLoop {α E : Type} (fails : List α → Option E) (entities : List α)
    (b : Int) : Nat → Int → List (Nat × List α) → List (List α) →
    Option (BulkResult α E)
  | 0, _, _, _ => none
  | fuel+1, i, calls, committed =>
    if i < (entities.length : Int) then
      let e := i + b
      let e' := if e > (entities.length : Int) then (entities.length : Int) else e
      match goSlice entities i e' with
      | none => some ⟨.fault, calls, committed⟩
      | some batch =>
        let idsLen := (e' - i).toNat
        match fails batch with
        | some er => some ⟨.err er, calls ++ [(idsLen, batch)], committed⟩
        | none =>
          bulkLoop fails entities b fuel (i + b)
            (calls ++ [(idsLen, batch)]) (committed ++ [batch])
    else some ⟨.ok, calls, committed⟩

/-- `(*Exec).BulkCreate` (exec/exec.go): the batching loop started at
`i = 0` with no calls issued.  (The `reflect.Slice` type check always
passes: the input is a slice by construction.) -/
def BulkCreate {α E : Type} (fails : List α → Option E) (entities : List α)
    (b : Int) (fuel : Nat) : Option (BulkResult α E) :=
  bulkLoop fails entities b fuel 0 [] []

/-- Contiguous partition of a list into blocks of `m` with only the
last block possibly shorter (specification-side description of the
batching; meaningful for `1 ≤ m`). -/
def chunks {α : Type} (m : Nat) (l : List α) : List (List α) :=
  match l with
  | [] => []
  | x :: xs =>
    if m = 0 then []
    else (x :: xs).take m :: chunks m ((x :: xs).drop m)
termination_by l.length
decreasing_by
  simp only [List.length_drop, List.length_cons]
  omega

/-- Specification-side description of processing a batch list in order:
stop at the first batch the store fails, recording every `CreateMulti`
call (with one nil id per item) and every committed batch. -/
def runChunks {α E : Type} (fails : List α → Option E) :
    List (List α) → List (Nat × List α) → List (List α) → BulkResult α E
  | [], calls, committed => ⟨.ok, calls, committed⟩
  | c :: rest, calls, committed =>
    match fails c with
    | some er => ⟨.err er, calls ++ [(c.length, c)], committed⟩
    | none => runChunks fails rest (calls ++ [(c.length, c)]) (committed ++ [c])

end Exec

/-- The operator tokens of the map mini-syntax in the precedence order
the specification states: `>=`, `<=`, `>`, `<`, `!=`. -/
def opTokens : List (String × FilterOperator) :=
  [(">=", GreaterThanOrEqual), ("<=", LessThanOrEqual),
   (">", GreaterThan), ("<", LessThan), ("!=", NotEqual)]

/-- Specification-side restatement of the map-key parsing: the first
token of `opTokens` occurring in the key decides the operator and the
field is the trimmed part before it; with no token the operator is `=`
and the field is the whole key. -/
def specKeyOp (key : String) : String × FilterOperator :=
  match opTokens.find? (fun t => goContains key t.1) with
  | some t => (goTrim ((goSplit key t.1).headD ""), t.2)
  | none => (key, Equal)

/-! Helper lemmas. -/

theorem fromMap_filters_eq (m : List (String × Value)) : ∀ f : FilterBuilder,
    (f.FromMap m).filters =
      f.filters ++ m.map (fun kv =>
        (⟨(fromMapKeyOp kv.1).1, (fromMapKeyOp kv.1).2, kv.2⟩ : FilterParam)) := by
  induction m with
  | nil => intro f; simp [FilterBuilder.FromMap]
  | cons kv rest ih =>
    intro f
    simp only [FilterBuilder.FromMap, List.foldl_cons, List.map_cons]
    rw [show (rest.foldl (fun f kv =>
          (⟨f.filters ++ [⟨(fromMapKeyOp kv.1).1, (fromMapKeyOp kv.1).2, kv.2⟩]⟩ :
            FilterBuilder)) _) = FilterBuilder.FromMap _ rest from rfl, ih]
    simp

theorem fromMapKeyOp_eq_specKeyOp (key : String) :
    fromMapKeyOp key = specKeyOp key := by
  unfold fromMapKeyOp specKeyOp opTokens
  cases h1 : goContains key ">=" <;>
    cases h2 : goContains key "<=" <;>
      cases h3 : goContains key ">" <;>
        cases h4 : goContains key "<" <;>
          cases h5 : goContains key "!=" <;>
            simp [List.find?, h1, h2, h3, h4, h5]

theorem fromStruct_filters_eq (fields : List StructField) : ∀ f : FilterBuilder,
    (f.FromStruct fields).filters =
      f.filters ++ (fields.filter (fun fd => !isZeroValue fd.value)).map
        (fun fd => (⟨resolveFieldName fd, Equal, fd.value⟩ : FilterParam)) := by
  induction fields with
  | nil => intro f; simp [FilterBuilder.FromStruct]
  | cons fd rest ih =>
    intro f
    simp only [FilterBuilder.FromStruct, List.foldl_cons] at ih ⊢
    cases h : isZeroValue fd.value with
    | true =>
      rw [show (if true = true then f else f.Equal (resolveFieldName fd) fd.value)
            = f from rfl, ih]
      simp [h]
    | false =>
      rw [show (if false = true then f else f.Equal (resolveFieldName fd) fd.value)
            = f.Equal (resolveFieldName fd) fd.value from rfl, ih]
      simp [h, FilterBuilder.Equal]

theorem whereIn_params_eq (values : List Value) : ∀ (b : Builder) (field : String),
    (b.WhereIn field values).params =
      { b.params with Filters := (b.params.Filters ++
          values.map (fun v => (⟨field, Equal, v⟩ : FilterParam))) } := by
  induction values with
  | nil => intro b field; simp [Builder.WhereIn]
  | cons v rest ih =>
    intro b field
    simp only [Builder.WhereIn, List.foldl_cons, List.map_cons] at ih ⊢
    rw [ih]
    simp [Builder.Filter]

theorem whereIn_kind_eq (values : List Value) : ∀ (b : Builder) (field : String),
    (b.WhereIn field values).kind = b.kind := by
  induction values with
  | nil => intro b field; rfl
  | cons v rest ih =>
    intro b field
    simp only [Builder.WhereIn, List.foldl_cons] at ih ⊢
    rw [ih]
    rfl

theorem filter_foldl_preserves (l : List FilterParam) : ∀ b : Builder,
    ((l.foldl (fun b fp => b.Filter fp.field fp.operator fp.value) b).params.Limit
        = b.params.Limit) ∧
    ((l.foldl (fun b fp => b.Filter fp.field fp.operator fp.value) b).params.Offset
        = b.params.Offset) := by
  induction l with
  | nil => intro b; exact ⟨rfl, rfl⟩
  | cons fp rest ih =>
    intro b
    simp only [List.foldl_cons]
    exact ⟨(ih _).1, (ih _).2⟩

theorem runChunks_ok {α E : Type} (fails : List α → Option E) :
    ∀ (cs : List (List α)) (calls : List (Nat × List α)) (committed : List (List α)),
      (∀ c ∈ cs, fails c = none) →
      Exec.runChunks fails cs calls committed =
        ⟨.ok, calls ++ cs.map (fun c => (c.length, c)), committed ++ cs⟩ := by
  intro cs
  induction cs with
  | nil => intro calls committed _; simp [Exec.runChunks]
  | cons c rest ih =>
    intro calls committed h
    have hc : fails c = none := h c (by simp)
    simp only [Exec.runChunks, hc]
    rw [ih _ _ (fun x hx => h x (by simp [hx]))]
    simp

theorem runChunks_err {α E : Type} (fails : List α → Option E) :
    ∀ (pre : List (List α)) (c : List α) (post : List (List α)) (er : E)
      (calls : List (Nat × List α)) (committed : List (List α)),
      (∀ x ∈ pre, fails x = none) → fails c = some er →
      Exec.runChunks fails (pre ++ c :: post) calls committed =
        ⟨.err er, calls ++ pre.map (fun x => (x.length, x)) ++ [(c.length, c)],
          committed ++ pre⟩ := by
  intro pre
  induction pre with
  | nil =>
    intro c post er calls committed _ hc
    simp only [List.nil_append, Exec.runChunks, hc, List.map_nil]
    simp
  | cons p rest ih =>
    intro c post er calls committed h hc
    have hp : fails p = none := h p (by simp)
    simp only [List.cons_append, Exec.runChunks, hp]
    have h2 := ih c post er (calls ++ [(p.length, p)]) (committed ++ [p])
      (fun x hx => h x (by simp [hx])) hc
    rw [show rest.append (c :: post) = rest ++ c :: post from rfl, h2]
    simp

theorem runChunks_calls_mem {α E : Type} (fails : List α → Option E) :
    ∀ (cs : List (List α)) (calls : List (Nat × List α)) (committed : List (List α))
      (p : Nat × List α),
      p ∈ (Exec.runChunks fails cs calls committed).calls →
      p ∈ calls ∨ p.1 = p.2.length := by
  intro cs
  induction cs with
  | nil =>
    intro calls committed p hp
    exact Or.inl hp
  | cons c rest ih =>
    intro calls committed p hp
    simp only [Exec.runChunks] at hp
    cases hfc : fails c with
    | some er =>
      rw [hfc] at hp
      simp only [List.mem_append, List.mem_singleton] at hp
      rcases hp with hp | hp
      · exact Or.inl hp
      · right; rw [hp]
    | none =>
      rw [hfc] at hp
      rcases ih _ _ _ hp with hmem | hlen
      · simp only [List.mem_append, List.mem_singleton] at hmem
        rcases hmem with hmem | hmem
        · exact Or.inl hmem
        · right; rw [hmem]
      · exact Or.inr hlen

theorem chunks_cons {α : Type} (m : Nat) (x : α) (xs : List α) (hm : m ≠ 0) :
    Exec.chunks m (x :: xs) =
      (x :: xs).take m :: Exec.chunks m ((x :: xs).drop m) := by
  rw [Exec.chunks]
  simp [hm]

theorem chunks_nil {α : Type} (m : Nat) : Exec.chunks m ([] : List α) = [] := by
  rw [Exec.chunks]

theorem chunks_ne_nil {α : Type} (m : Nat) (l : List α) (hm : m ≠ 0) (hl : l ≠ []) :
    Exec.chunks m l ≠ [] := by
  cases l with
  | nil => exact absurd rfl hl
  | cons x xs => rw [chunks_cons m x xs hm]; simp

theorem chunks_flatten {α : Type} (m : Nat) (hm : m ≠ 0) :
    ∀ (N : Nat) (l : List α), l.length ≤ N → (Exec.chunks m l).flatten = l := by
  intro N
  induction N with
  | zero =>
    intro l hl
    have h0 : l = [] := List.eq_nil_of_length_eq_zero (Nat.le_zero.mp hl)
    subst h0
    rw [chunks_nil]
    rfl
  | succ N ih =>
    intro l hl
    cases l with
    | nil => rw [chunks_nil]; rfl
    | cons x xs =>
      rw [chunks_cons m x xs hm]
      simp only [List.flatten_cons]
      rw [ih ((x :: xs).drop m)
        (by simp only [List.length_drop, List.length_cons]
            simp only [List.length_cons] at hl
            omega)]
      exact List.take_append_drop m (x :: xs)

theorem chunks_length {α : Type} (m : Nat) (hm : 0 < m) :
    ∀ (N : Nat) (l : List α), l.length ≤ N →
      (Exec.chunks m l).length = (l.length + m - 1) / m := by
  intro N
  induction N with
  | zero =>
    intro l hl
    have h0 : l = [] := List.eq_nil_of_length_eq_zero (Nat.le_zero.mp hl)
    subst h0
    rw [chunks_nil]
    have hd : (0 + m - 1) / m = 0 := Nat.div_eq_of_lt (by omega)
    simp only [List.length_nil]
    omega
  | succ N ih =>
    intro l hl
    cases l with
    | nil =>
      rw [chunks_nil]
      have hd : (0 + m - 1) / m = 0 := Nat.div_eq_of_lt (by omega)
      simp only [List.length_nil]
      omega
    | cons x xs =>
      rw [chunks_cons m x xs (by omega)]
      simp only [List.length_cons]
      rw [ih ((x :: xs).drop m)
        (by simp only [List.length_drop, List.length_cons]
            simp only [List.length_cons] at hl
            omega)]
      simp only [List.length_drop, List.length_cons]
      rcases Nat.lt_or_ge (xs.length + 1) m with hsmall | hbig
      · have h1 : xs.length + 1 - m = 0 := by omega
        have h2 : (0 + m - 1) / m = 0 := Nat.div_eq_of_lt (by omega)
        have h3 : (xs.length + 1 + m - 1) / m = 1 :=
          Nat.div_eq_of_lt_le (by omega) (by omega)
        rw [h1]
        omega
      · have h1 : xs.length + 1 - m + m - 1 = xs.length := by omega
        have h2 : xs.length + 1 + m - 1 = xs.length + m := by omega
        rw [h1, h2, Nat.add_div_right _ hm]

theorem chunks_sizes {α : Type} (m : Nat) (hm : 0 < m) :
    ∀ (N : Nat) (l : List α), l.length ≤ N →
      ∀ c ∈ Exec.chunks m l, 0 < c.length ∧ c.length ≤ m := by
  intro N
  induction N with
  | zero =>
    intro l hl c hc
    have h0 : l = [] := List.eq_nil_of_length_eq_zero (Nat.le_zero.mp hl)
    subst h0
    rw [chunks_nil] at hc
    simp at hc
  | succ N ih =>
    intro l hl c hc
    cases l with
    | nil =>
      rw [chunks_nil] at hc
      simp at hc
    | cons x xs =>
      rw [chunks_cons m x xs (by omega)] at hc
      rcases List.mem_cons.mp hc with hc | hc
      · subst hc
        simp only [List.length_take, List.length_cons]
        omega
      · exact ih ((x :: xs).drop m)
          (by simp only [List.length_drop, List.length_cons]
              simp only [List.length_cons] at hl
              omega) c hc

theorem chunks_dropLast {α : Type} (m : Nat) (hm : 0 < m) :
    ∀ (N : Nat) (l : List α), l.length ≤ N →
      ∀ c ∈ (Exec.chunks m l).dropLast, c.length = m := by
  intro N
  induction N with
  | zero =>
    intro l hl c hc
    have h0 : l = [] := List.eq_nil_of_length_eq_zero (Nat.le_zero.mp hl)
    subst h0
    rw [chunks_nil] at hc
    simp at hc
  | succ N ih =>
    intro l hl c hc
    cases l with
    | nil =>
      rw [chunks_nil] at hc
      simp at hc
    | cons x xs =>
      rw [chunks_cons m x xs (by omega)] at hc
      cases hrest : Exec.chunks m ((x :: xs).drop m) with
      | nil =>
        rw [hrest] at hc
        simp at hc
      | cons r rs =>
        rw [hrest] at hc
        simp only [List.dropLast_cons₂, List.mem_cons] at hc
        have hdrop_ne : (x :: xs).drop m ≠ [] := by
          intro hnil
          rw [hnil, chunks_nil] at hrest
          exact List.noConfusion hrest
        have hmlt : m < xs.length + 1 := by
          by_contra hge
          refine hdrop_ne (List.drop_eq_nil_of_le ?_)
          simp only [List.length_cons]
          omega
        rcases hc with hc | hc
        · subst hc
          simp only [List.length_take, List.length_cons]
          omega
        · rw [← hrest] at hc
          exact ih ((x :: xs).drop m)
            (by simp only [List.length_drop, List.length_cons]
                simp only [List.length_cons] at hl
                omega) c hc

theorem goSlice_eq_take {α : Type} (l : List α) (k t : Nat) (h : k + t ≤ l.length) :
    Exec.goSlice l (k : Int) ((k : Int) + (t : Int)) = some ((l.drop k).take t) := by
  unfold Exec.goSlice
  rw [if_pos (by omega)]
  have h1 : ((k : Int)).toNat = k := by omega
  have h2 : ((k : Int) + (t : Int) - (k : Int)).toNat = t := by omega
  rw [h1, h2]

theorem chunks_drop_step {α : Type} (m k : Nat) (l : List α) (hm : 0 < m)
    (hk : k < l.length) :
    Exec.chunks m (l.drop k) =
      (l.drop k).take m :: Exec.chunks m (l.drop (k + m)) := by
  cases hdk : l.drop k with
  | nil =>
    exfalso
    have hlen := congrArg List.length hdk
    simp only [List.length_drop, List.length_nil] at hlen
    omega
  | cons y ys =>
    rw [chunks_cons m y ys (by omega), ← hdk, List.drop_drop]

theorem bulkLoop_chunks {α E : Type} (fails : List α → Option E) (entities : List α)
    (m : Nat) (hm : 0 < m) :
    ∀ (fuel k : Nat) (calls : List (Nat × List α)) (committed : List (List α)),
      entities.length - k < fuel →
      Exec.bulkLoop fails entities (m : Int) fuel (k : Int) calls committed =
        some (Exec.runChunks fails (Exec.chunks m (entities.drop k)) calls committed) := by
  intro fuel
  induction fuel with
  | zero => intro k calls committed h; exact absurd h (Nat.not_lt_zero _)
  | succ fuel ih =>
    intro k calls committed hfuel
    by_cases hk : k < entities.length
    · have hkI : ((k : Int) < (entities.length : Int)) := by omega
      have hchunk := chunks_drop_step m k entities hm hk
      simp only [Exec.bulkLoop]
      rw [if_pos hkI]
      have hcast : (k : Int) + (m : Int) = ((k + m : Nat) : Int) := by omega
      rcases le_or_lt (k + m) entities.length with hle | hgt
      · -- end does not exceed total: batch is a full block of m
        rw [if_neg (show ¬ ((k : Int) + (m : Int) > (entities.length : Int)) by omega)]
        rw [goSlice_eq_take entities k m hle]
        have hids : ((k : Int) + (m : Int) - (k : Int)).toNat = m := by omega
        have hblen : ((entities.drop k).take m).length = m := by
          simp only [List.length_take, List.length_drop]
          omega
        simp only [hids]
        cases hfb : fails ((entities.drop k).take m) with
        | some er =>
          rw [hchunk]
          simp only [Exec.runChunks, hfb, hblen]
        | none =>
          rw [hcast, ih (k + m) _ _ (by omega)]
          rw [hchunk]
          simp only [Exec.runChunks, hfb, hblen]
      · -- end clamped to total: batch is the remainder
        rw [if_pos (show ((k : Int) + (m : Int) > (entities.length : Int)) by omega)]
        have harg : (entities.length : Int) = (k : Int) + ((entities.length - k : Nat) : Int) := by
          omega
        have hsl := goSlice_eq_take entities k (entities.length - k) (by omega)
        rw [← harg] at hsl
        rw [hsl]
        have hids : ((entities.length : Int) - (k : Int)).toNat = entities.length - k := by
          omega
        have hfull : (entities.drop k).take (entities.length - k) = entities.drop k := by
          apply List.take_of_length_le
          simp only [List.length_drop]
          omega
        have hfullm : (entities.drop k).take m = entities.drop k := by
          apply List.take_of_length_le
          simp only [List.length_drop]
          omega
        have hblen : (entities.drop k).length = entities.length - k := by
          simp only [List.length_drop]
        simp only [hids, hfull]
        cases hfb : fails (entities.drop k) with
        | some er =>
          rw [hchunk]
          simp only [Exec.runChunks, hfullm, hfb, hblen]
        | none =>
          rw [hcast, ih (k + m) _ _ (by omega)]
          rw [hchunk]
          simp only [Exec.runChunks, hfullm, hfb, hblen]
    · have hge : entities.length ≤ k := Nat.le_of_not_lt hk
      have hkI : ¬ ((k : Int) < (entities.length : Int)) := by omega
      simp only [Exec.bulkLoop]
      rw [if_neg hkI]
      rw [List.drop_eq_nil_of_le hge, chunks_nil]
      rfl

theorem bulkLoop_zero {α E : Type} (fails : List α → Option E) (entities : List α)
    (hne : entities ≠ []) (hf : fails [] = none) :
    ∀ (fuel : Nat) (calls : List (Nat × List α)) (committed : List (List α)),
      Exec.bulkLoop fails entities 0 fuel 0 calls committed = none := by
  intro fuel
  induction fuel with
  | zero => intro calls committed; rfl
  | succ fuel ih =>
    intro calls committed
    have hpos : 0 < entities.length := List.length_pos.mpr hne
    simp only [Exec.bulkLoop]
    rw [if_pos (show (0 : Int) < (entities.length : Int) by omega)]
    rw [if_neg (show ¬ ((0 : Int) + 0 > (entities.length : Int)) by omega)]
    have hsl : Exec.goSlice entities (0 : Int) ((0 : Int) + (0 : Int)) = some [] := by
      unfold Exec.goSlice
      rw [if_pos (by omega)]
      rfl
    rw [hsl]
    simp only [hf]
    exact ih _ _

theorem bulkLoop_neg {α E : Type} (fails : List α → Option E) (entities : List α)
    (b : Int) (hb : b < 0) (hne : entities ≠ []) :
    ∀ (fuel : Nat) (calls : List (Nat × List α)) (committed : List (List α)),
      1 ≤ fuel →
      Exec.bulkLoop fails entities b fuel 0 calls committed =
        some ⟨Exec.BulkOutcome.fault, calls, committed⟩ := by
  intro fuel calls committed hfuel
  cases fuel with
  | zero => exact absurd hfuel (by omega)
  | succ fuel =>
    have hpos : 0 < entities.length := List.length_pos.mpr hne
    simp only [Exec.bulkLoop]
    rw [if_pos (show (0 : Int) < (entities.length : Int) by omega)]
    rw [if_neg (show ¬ ((0 : Int) + b > (entities.length : Int)) by omega)]
    have hsl : Exec.goSlice entities (0 : Int) ((0 : Int) + b) = none := by
      unfold Exec.goSlice
      rw [if_neg (by omega)]
    rw [hsl]

/-! Claim theorems. -/

/-- C1: evaluation of the divergence.  In `Repository.Query` /
`Repository.QueryTyped` map input, `applyMapParams` does handle the
reserved keys `limit`/`offset`/`cursor`/`order_by` as pagination and
ordering, but it sends every other key through `Where` unparsed: the
key `"age>="` with value 18 becomes an equality filter on the literal
field `"age>="`, not a `>=` filter on `"age"` as the normalizer
`FromMap` (used by `FindWhere`/`Paginate`/`Count`) would produce. -/
theorem applyMapParams_operator_suffix_divergence :
    ((applyMapParams Builder.New [("age>=", Value.int 18)]).params.Filters =
        [⟨"age>=", Equal, Value.int 18⟩]) ∧
    ((NewFilter.FromMap [("age>=", Value.int 18)]).filters =
        [⟨"age", GreaterThanOrEqual, Value.int 18⟩]) ∧
    ((applyMapParams Builder.New
        [("limit", Value.int 10), ("offset", Value.int 3),
         ("cursor", Value.str "c"), ("order_by", Value.str "name")]).params =
      ⟨[], [⟨"name", Ascending⟩], 10, 3, "c", [], false, false, none⟩) ∧
    (∀ resp, QueryTypedMap "users" [("age>=", Value.int 18)] resp =
        ((Builder.New.Kind "users").Where "age>=" (Value.int 18)).Execute resp) :=
  ⟨rfl, rfl, rfl, fun _ => rfl⟩

/-- C2 counterexample: two successive `Select` calls do not accumulate
the projection fields; the second call's list replaces the first. -/
theorem select_does_not_accumulate :
    ¬ (((Builder.New.Select ["a"]).Select ["b"]).params.Select = ["a", "b"]) := by
  decide

/-- C2 (amended): later calls to `Limit`, `Offset`, `Cursor`,
`Ancestor` — and also `Select` — overwrite the earlier value (last
write wins), while repeated `Filter` and `Order` calls append to the
accumulated filters and orders. -/
theorem builder_last_write_wins_and_append :
    (∀ (b : Builder) (x y : Int), ((b.Limit x).Limit y).params.Limit = y) ∧
    (∀ (b : Builder) (x y : Int), ((b.Offset x).Offset y).params.Offset = y) ∧
    (∀ (b : Builder) (x y : String), ((b.Cursor x).Cursor y).params.Cursor = y) ∧
    (∀ (b : Builder) (k1 k2 : String) (i1 i2 : Value),
        ((b.Ancestor k1 i1).Ancestor k2 i2).params.Ancestor = some ⟨k2, i2⟩) ∧
    (∀ (b : Builder) (f g : List String), ((b.Select f).Select g).params.Select = g) ∧
    (∀ (b : Builder) (field : String) (op : FilterOperator) (v : Value),
        (b.Filter field op v).params.Filters = b.params.Filters ++ [⟨field, op, v⟩]) ∧
    (∀ (b : Builder) (field : String) (d : OrderDirection),
        (b.Order field d).params.Orders = b.params.Orders ++ [⟨field, d⟩]) :=
  ⟨fun b x y => rfl, fun b x y => rfl, fun b x y => rfl,
   fun b k1 i1 k2 i2 => rfl, fun b f g => rfl,
   fun b f op v => rfl, fun b f d => rfl⟩

/-- C3: `FromMap` detects the embedded operator token by checking, in
this order, `>=`, `<=`, `>`, `<`, `!=` (the first containment test that
fires wins, so `>=` beats `>` and `<=` beats `<`); with no token the
operator is `=` and the field is the whole key; otherwise the field is
the substring before the token with surrounding whitespace trimmed and
the value is passed through unchanged.  In particular `"age>= "` with
value 18 yields the condition (field `age`, operator `>=`, value 18). -/
theorem fromMap_operator_precedence :
    (∀ key, fromMapKeyOp key = specKeyOp key) ∧
    (∀ (f : FilterBuilder) (m : List (String × Value)),
        (f.FromMap m).filters = f.filters ++ m.map (fun kv =>
          (⟨(fromMapKeyOp kv.1).1, (fromMapKeyOp kv.1).2, kv.2⟩ : FilterParam))) ∧
    fromMapKeyOp "age>= " = ("age", GreaterThanOrEqual) ∧
    (NewFilter.FromMap [("age>= ", Value.int 18)]).filters =
      [⟨"age", GreaterThanOrEqual, Value.int 18⟩] :=
  ⟨fromMapKeyOp_eq_specKeyOp, fun f m => fromMap_filters_eq m f, rfl, rfl⟩

/-- C4: a successful `Execute` returns `Total` equal to the number of
entities the store returned and `HasMore = (Total == limit && limit > 0)`;
with limit 5 and 5 results `HasMore` is true, with limit 5 and 3
results it is false, and with limit 0 (unset) it is false for every
result count. -/
theorem execute_pagination_heuristic :
    (∀ (b : Builder) (keys : List Unit) (r : PaginationResult),
        b.Execute (Except.ok keys) = Except.ok r →
        r.Total = keys.length ∧
          (r.HasMore = true ↔
            (keys.length : Int) = b.params.Limit ∧ 0 < b.params.Limit)) ∧
    ((Builder.New.Limit 5).Execute (Except.ok [(), (), (), (), ()]) =
        Except.ok ⟨"", true, 5⟩) ∧
    ((Builder.New.Limit 5).Execute (Except.ok [(), (), ()]) =
        Except.ok ⟨"", false, 3⟩) ∧
    (∀ keys : List Unit, ∃ r, Builder.New.Execute (Except.ok keys) = Except.ok r ∧
        r.HasMore = false) := by
  refine ⟨?_, rfl, rfl, ?_⟩
  · intro b keys r h
    simp only [Builder.Execute, Except.ok.injEq] at h
    subst h
    refine ⟨rfl, ?_⟩
    simp [Bool.and_eq_true, decide_eq_true_eq]
  · intro keys
    refine ⟨_, rfl, ?_⟩
    simp [Builder.Execute, Builder.New]

/-- C4 witness: the theorem applied to the builder with limit 5 and a
3-element store response. -/
theorem execute_pagination_heuristic_witness :
    (⟨"", false, 3⟩ : PaginationResult).Total = [(), (), ()].length ∧
      ((⟨"", false, 3⟩ : PaginationResult).HasMore = true ↔
        (([(), (), ()].length : Int) = (Builder.New.Limit 5).params.Limit ∧
          0 < (Builder.New.Limit 5).params.Limit)) :=
  execute_pagination_heuristic.1 (Builder.New.Limit 5) [(), (), ()] ⟨"", false, 3⟩ rfl

/-- C5: `WhereIn` appends one `Equal` condition per value, in input
order, and the translated query requires all of them at once (AND of
equalities, not OR/IN): an entity matching only one of the two statuses
does not match the query. -/
theorem whereIn_equality_and_semantics :
    (∀ (b : Builder) (field : String) (values : List Value),
        ((b.WhereIn field values).params.Filters =
          b.params.Filters ++ values.map (fun v => (⟨field, Equal, v⟩ : FilterParam))) ∧
        ((b.WhereIn field values).params.Filters.length =
          b.params.Filters.length + values.length) ∧
        (∀ e : String → Value,
          ((b.WhereIn field values).Build).matchesFilters e =
            ((b.Build).matchesFilters e && values.all (fun v => e field == v)))) ∧
    ((Builder.New.WhereIn "status"
        [Value.str "active", Value.str "pending"]).params.Filters =
      [⟨"status", Equal, Value.str "active"⟩,
       ⟨"status", Equal, Value.str "pending"⟩]) ∧
    (((Builder.New.WhereIn "status"
        [Value.str "active", Value.str "pending"]).Build).matchesFilters
          (fun _ => Value.str "active") = false) := by
  refine ⟨?_, rfl, rfl⟩
  intro b field values
  have hf : (b.WhereIn field values).params.Filters =
      b.params.Filters ++ values.map (fun v => (⟨field, Equal, v⟩ : FilterParam)) := by
    rw [whereIn_params_eq]
  refine ⟨hf, by simp [hf], ?_⟩
  intro e
  have hmap : ∀ vs : List Value,
      (vs.map (fun v => (⟨field, Equal, v⟩ : FilterParam))).all (evalFilter e) =
        vs.all (fun v => e field == v) := by
    intro vs
    induction vs with
    | nil => rfl
    | cons v vs ih => simp [evalFilter, ih]
  simp only [NativeQuery.matchesFilters, Builder.Build, hf, List.all_append, hmap]

/-- C6: `Count` runs on a keys-only clone built from a by-value copy of
the accumulated parameters; the original builder (filters, orders,
limit, offset, cursor, projection, keys-only flag, ancestor) is left
unchanged, so `Execute` after `Count` behaves exactly as without the
`Count`. -/
theorem count_preserves_builder :
    ∀ (b : Builder) (store : NativeQuery → Except String (List Unit)),
      (b.Count store).2 = b ∧
      b.CountClone.kind = b.kind ∧
      b.CountClone.params = { b.params with KeysOnly := true } ∧
      b.CountClone.Build.keysOnly = true ∧
      (∀ resp, ((b.Count store).2).Execute resp = b.Execute resp) :=
  fun _ _ => ⟨rfl, rfl, rfl, rfl, fun _ => rfl⟩

/-- C7: `Paginate` gives the builder limit `pageSize` and offset
`(page-1)*pageSize` under 1-based page numbering: page 1 with page size
10 yields offset 0, page 2 yields offset 10, and page 0 yields offset
-10, computed, not clamped. -/
theorem paginate_offset_formula :
    (∀ (kind : String) (filters : List (String × Value)) (page pageSize : Int),
        ((Exec.paginateBuilder kind filters page pageSize).params.Limit = pageSize) ∧
        ((Exec.paginateBuilder kind filters page pageSize).params.Offset =
          (page - 1) * pageSize) ∧
        (∀ resp, Exec.Paginate kind filters page pageSize resp =
          (Exec.paginateBuilder kind filters page pageSize).Execute resp)) ∧
    ((Exec.paginateBuilder "k" [] 1 10).params.Offset = 0) ∧
    ((Exec.paginateBuilder "k" [] 2 10).params.Offset = 10) ∧
    ((Exec.paginateBuilder "k" [] 0 10).params.Offset = -10) := by
  refine ⟨?_, by decide, by decide, by decide⟩
  intro kind filters page pageSize
  refine ⟨?_, ?_, fun resp => rfl⟩
  · exact (filter_foldl_preserves _ _).1
  · exact (filter_foldl_preserves _ _).2

/-- C9: `FromStruct` emits, in field-declaration order, one equality
condition for exactly the fields whose value is not the type's
zero/empty value, under the name resolved from the `datastore` tag,
else the `json` tag, else the lowercased field name; a record with one
zero-valued and one non-zero field yields exactly one equality
condition for the non-zero field. -/
theorem fromStruct_nonzero_equality_filters :
    (∀ (f : FilterBuilder) (fields : List StructField),
        (f.FromStruct fields).filters =
          f.filters ++ (fields.filter (fun fd => !isZeroValue fd.value)).map
            (fun fd => (⟨resolveFieldName fd, Equal, fd.value⟩ : FilterParam))) ∧
    (∀ fd : StructField, fd.datastoreTag ≠ "" → fd.datastoreTag ≠ "-" →
        goSplit fd.datastoreTag "," = [fd.datastoreTag] →
        resolveFieldName fd = fd.datastoreTag) ∧
    (∀ fd : StructField, (fd.datastoreTag = "" ∨ fd.datastoreTag = "-") →
        fd.jsonTag ≠ "" → fd.jsonTag ≠ "-" →
        goSplit fd.jsonTag "," = [fd.jsonTag] →
        resolveFieldName fd = fd.jsonTag) ∧
    (∀ fd : StructField, (fd.datastoreTag = "" ∨ fd.datastoreTag = "-") →
        (fd.jsonTag = "" ∨ fd.jsonTag = "-") →
        goSplit (goToLower fd.name) "," = [goToLower fd.name] →
        resolveFieldName fd = goToLower fd.name) ∧
    ((NewFilter.FromStruct
        [⟨"Status", "status", "", Value.str "active"⟩,
         ⟨"Age", "age", "", Value.int 0⟩]).filters =
      [⟨"status", Equal, Value.str "active"⟩]) := by
  refine ⟨fun f fields => fromStruct_filters_eq fields f, ?_, ?_, ?_, rfl⟩
  · intro fd h1 h2 h3
    simp [resolveFieldName, h1, h2, h3]
  · intro fd hd h1 h2 h3
    rcases hd with h | h <;> simp [resolveFieldName, h, h1, h2, h3]
  · intro fd hd hj h3
    rcases hd with h | h <;> rcases hj with h' | h' <;>
      simp [resolveFieldName, h, h', h3]

/-- C9 witness: tag resolution applied at concrete fields. -/
theorem fromStruct_nonzero_equality_filters_witness :
    resolveFieldName ⟨"Status", "status", "", Value.str "active"⟩ = "status" ∧
    resolveFieldName ⟨"Status", "", "status_j", Value.str "active"⟩ = "status_j" ∧
    resolveFieldName ⟨"Status", "", "", Value.str "active"⟩ = "status" :=
  ⟨fromStruct_nonzero_equality_filters.2.1 ⟨"Status", "status", "", Value.str "active"⟩
      (by decide) (by decide) (by decide),
   fromStruct_nonzero_equality_filters.2.2.1 ⟨"Status", "", "status_j", Value.str "active"⟩
      (Or.inl rfl) (by decide) (by decide) (by decide),
   fromStruct_nonzero_equality_filters.2.2.2.1 ⟨"Status", "", "", Value.str "active"⟩
      (Or.inl rfl) (Or.inl rfl) (by decide)⟩

/-- C8: for batch size `b ≥ 1`, `BulkCreate` partitions the input in
order into `ceil(n/b)` contiguous batches of size `b` with only the
last batch possibly shorter (`[2,2,1]` for five entities and batch size
2), issues one `CreateMulti` per batch with one auto-generate (nil) id
per item, stops at the first failing batch returning its error, and
leaves exactly the batches before it committed. -/
theorem bulkCreate_batching {α E : Type} (fails : List α → Option E)
    (entities : List α) (b : Int) (hb : 1 ≤ b) :
    ∃ r : Exec.BulkResult α E,
      Exec.BulkCreate fails entities b (entities.length + 1) = some r ∧
      (Exec.chunks b.toNat entities).flatten = entities ∧
      (Exec.chunks b.toNat entities).length = (entities.length + b.toNat - 1) / b.toNat ∧
      (∀ c ∈ (Exec.chunks b.toNat entities).dropLast, c.length = b.toNat) ∧
      (∀ c ∈ Exec.chunks b.toNat entities, 0 < c.length ∧ c.length ≤ b.toNat) ∧
      (∀ p ∈ r.calls, p.1 = p.2.length) ∧
      ((∀ c ∈ Exec.chunks b.toNat entities, fails c = none) →
        r.outcome = Exec.BulkOutcome.ok ∧
        r.calls.map Prod.snd = Exec.chunks b.toNat entities ∧
        r.committed = Exec.chunks b.toNat entities) ∧
      (∀ (pre : List (List α)) (c : List α) (post : List (List α)) (er : E),
        Exec.chunks b.toNat entities = pre ++ c :: post →
        (∀ x ∈ pre, fails x = none) → fails c = some er →
        r.outcome = Exec.BulkOutcome.err er ∧
        r.calls.map Prod.snd = pre ++ [c] ∧
        r.committed = pre) ∧
      Exec.chunks 2 ([1, 2, 3, 4, 5] : List Nat) = [[1, 2], [3, 4], [5]] := by
  have hm : 0 < b.toNat := by omega
  have hbm : b = ((b.toNat : Nat) : Int) := by omega
  have h2 := bulkLoop_chunks fails entities b.toNat hm (entities.length + 1) 0 [] []
    (by omega)
  rw [← hbm] at h2
  have hrun : Exec.BulkCreate fails entities b (entities.length + 1) =
      some (Exec.runChunks fails (Exec.chunks b.toNat entities) [] []) := h2
  refine ⟨Exec.runChunks fails (Exec.chunks b.toNat entities) [] [], hrun,
    chunks_flatten b.toNat (by omega) entities.length entities le_rfl,
    chunks_length b.toNat hm entities.length entities le_rfl,
    chunks_dropLast b.toNat hm entities.length entities le_rfl,
    chunks_sizes b.toNat hm entities.length entities le_rfl,
    ?_, ?_, ?_, ?_⟩
  · intro p hp
    rcases runChunks_calls_mem fails _ [] [] p hp with hmem | hlen
    · simp at hmem
    · exact hlen
  · intro hall
    rw [runChunks_ok fails _ [] [] hall]
    refine ⟨rfl, ?_, by simp⟩
    simp only [List.nil_append, List.map_map]
    rw [show (Prod.snd ∘ fun c : List α => (c.length, c)) = id from funext fun _ => rfl]
    exact List.map_id _
  · intro pre c post er hsplit hpre hc
    rw [hsplit, runChunks_err fails pre c post er [] [] hpre hc]
    refine ⟨rfl, ?_, by simp⟩
    simp only [List.nil_append, List.map_append, List.map_map, List.map_cons,
      List.map_nil]
    rw [show (Prod.snd ∘ fun x : List α => (x.length, x)) = id from funext fun _ => rfl]
    simp
  · rw [chunks_cons 2 1 [2, 3, 4, 5] (by omega)]
    norm_num
    rw [chunks_cons 2 3 [4, 5] (by omega)]
    norm_num
    rw [chunks_cons 2 5 [] (by omega)]
    norm_num
    rw [chunks_nil]

/-- C8 witness: the theorem applied with batch size 2 to five entities
and a store that fails the second batch. -/
theorem bulkCreate_batching_witness :
    (Exec.chunks 2 ([1, 2, 3, 4, 5] : List Nat)).flatten = [1, 2, 3, 4, 5] := by
  obtain ⟨r, hr⟩ := bulkCreate_batching
    (fun c => if c = [3, 4] then some "boom" else (none : Option String))
    [1, 2, 3, 4, 5] 2 (by omega)
  exact hr.2.1

/-- C10 counterexample: with batch size -1 and a non-empty slice the
operation does terminate — on the very first iteration the slice bound
`end = i + batchSize` is negative and the slice operation faults — so
"batchSize ≤ 0 with a non-empty slice never terminates" is false. -/
theorem bulkCreate_negative_batch_terminates :
    Exec.BulkCreate (fun _ => (none : Option String)) ([1] : List Nat) (-1) 1 =
      some ⟨Exec.BulkOutcome.fault, [], []⟩ := rfl

/-- C10 (amended): `BulkCreate`'s loop terminates for every batch size
`b ≥ 1` (the index strictly increases, so fuel `n+1` iterations
suffice); no guard rejects non-positive sizes: on a non-empty slice,
batch size 0 never terminates (the index never advances and each
iteration issues an empty batch), while a negative batch size aborts on
the first iteration with a slice-bounds fault. -/
theorem bulkCreate_termination {α E : Type} (fails : List α → Option E)
    (entities : List α) (b : Int) :
    (1 ≤ b → (Exec.BulkCreate fails entities b (entities.length + 1)).isSome = true) ∧
    (b = 0 → entities ≠ [] → fails [] = none →
      ∀ fuel, Exec.BulkCreate fails entities b fuel = none) ∧
    (b < 0 → entities ≠ [] → ∀ fuel, 1 ≤ fuel →
      Exec.BulkCreate fails entities b fuel =
        some ⟨Exec.BulkOutcome.fault, [], []⟩) := by
  refine ⟨?_, ?_, ?_⟩
  · intro hb
    have hm : 0 < b.toNat := by omega
    have hbm : b = ((b.toNat : Nat) : Int) := by omega
    have h2 := bulkLoop_chunks fails entities b.toNat hm (entities.length + 1) 0 [] []
      (by omega)
    rw [← hbm] at h2
    have h3 : Exec.BulkCreate fails entities b (entities.length + 1) =
        some (Exec.runChunks fails (Exec.chunks b.toNat entities) [] []) := h2
    rw [h3]
    rfl
  · intro hb0 hne hf fuel
    subst hb0
    exact bulkLoop_zero fails entities hne hf fuel [] []
  · intro hbneg hne fuel hfuel
    exact bulkLoop_neg fails entities b hbneg hne fuel [] [] hfuel

/-- C10 witness: termination for batch size 2 on three entities,
divergence for batch size 0, and the first-iteration fault for batch
size -1, each on concrete inputs. -/
theorem bulkCreate_termination_witness :
    ((Exec.BulkCreate (fun _ => (none : Option String)) ([1, 2, 3] : List Nat)
        2 4).isSome = true) ∧
    (Exec.BulkCreate (fun _ => (none : Option String)) ([1] : List Nat) 0 7 = none) ∧
    (Exec.BulkCreate (fun _ => (none : Option String)) ([1] : List Nat) (-1) 1 =
      some ⟨Exec.BulkOutcome.fault, [], []⟩) :=
  ⟨(bulkCreate_termination (fun _ => (none : Option String)) ([1, 2, 3] : List Nat)
      2).1 (by omega),
   (bulkCreate_termination (fun _ => (none : Option String)) ([1] : List Nat)
      0).2.1 rfl (by decide) rfl 7,
   (bulkCreate_termination (fun _ => (none : Option String)) ([1] : List Nat)
      (-1)).2.2 (by decide) (by decide) 1 (by omega)⟩

end GoStore
